import Mathlib

/-!
Verification of the transcript extraction pipeline in
`fetch_fin_escalations.py` (FinExports).

The Python code is dynamically typed: conversation details arrive as JSON
objects whose fields may be absent, null, or of unexpected type.  We embed
the JSON universe as the inductive type `J` and translate the Python
functions line by line; attribute accesses that would raise in Python
(for example `.get` on `None`) are modelled with `Except String`.
-/

/-- JSON-like values as delivered by the helpdesk API.  Numbers are
modelled as integers (timestamps and ratings are integral in this data). -/
inductive J where
  | null : J
  | str : String → J
  | num : Int → J
  | bool : Bool → J
  | arr : List J → J
  | obj : List (String × J) → J
deriving Repr

/-- Python truthiness of a JSON value: `None`, `""`, `0`, `False`, `[]`
and the empty dict are falsy, everything else truthy. -/
def truthy : J → Bool
  | .null => false
  | .str s => decide (s ≠ "")
  | .num n => decide (n ≠ 0)
  | .bool b => b
  | .arr l => !l.isEmpty
  | .obj l => !l.isEmpty

mutual
/-- Python `==` on JSON values, structurally (dicts are kept in a canonical
key order by the API, so componentwise comparison models dict equality). -/
def jEq : J → J → Bool
  | .null, .null => true
  | .str a, .str b => a == b
  | .num a, .num b => a == b
  | .bool a, .bool b => a == b
  | .arr a, .arr b => jEqL a b
  | .obj a, .obj b => jEqO a b
  | _, _ => false
/-- Componentwise `==` on JSON arrays. -/
def jEqL : List J → List J → Bool
  | [], [] => true
  | a :: as, b :: bs => jEq a b && jEqL as bs
  | _, _ => false
/-- Componentwise `==` on JSON objects. -/
def jEqO : List (String × J) → List (String × J) → Bool
  | [], [] => true
  | (k, a) :: as, (k2, b) :: bs => k == k2 && jEq a b && jEqO as bs
  | _, _ => false
end

/-- Python `d.get(k, dflt)`: returns the stored value (which may itself be
null) when the key is present, the default otherwise.  Raises
AttributeError when the receiver is not a dict — e.g. `None.get(...)`. -/
def dictGet (j : J) (k : String) (dflt : J) : Except String J :=
  match j with
  | .obj fs =>
      match fs.lookup k with
      | some v => pure v
      | none => pure dflt
  | _ => throw "AttributeError"

/-- Python `d[k]` subscription: KeyError when absent, TypeError when the
receiver is not a dict. -/
def bracketGet (j : J) (k : String) : Except String J :=
  match j with
  | .obj fs =>
      match fs.lookup k with
      | some v => pure v
      | none => throw "KeyError"
  | _ => throw "TypeError"

/-- Python `k in d` for a dict receiver (non-dict receivers never reach
this check in the translated code because a `.get` raised first). -/
def hasKey (j : J) (k : String) : Bool :=
  match j with
  | .obj fs => (fs.lookup k).isSome
  | _ => false

/-- Python `a >= b` restricted to the comparisons the script can perform:
number against number and string against string; every other pairing
raises TypeError.  Booleans are not modelled as comparable. -/
def jGE (a b : J) : Except String Bool :=
  match a, b with
  | .num x, .num y => pure (decide (y ≤ x))
  | .str x, .str y => pure (decide (y ≤ x))
  | _, _ => throw "TypeError"

/-- Python `list(x)` as used by `parts += ...`: the receiver must be a
JSON array (extending by a dict or string is not exercised by this data
and is modelled as a TypeError, as extending by null is in Python). -/
def asList (j : J) : Except String (List J) :=
  match j with
  | .arr l => pure l
  | _ => throw "TypeError"

/-- A JSON number as the integer handed to `datetime.utcfromtimestamp`
(Python booleans are integers, so they convert too). -/
def asInt (j : J) : Except String Int :=
  match j with
  | .num n => pure n
  | .bool b => pure (if b then 1 else 0)
  | _ => throw "TypeError"

/-! ## Text Normalizer: `strip_html` (fetch_fin_escalations.py, lines 63-65)

`strip_html(t) = html.unescape(TAG_RE.sub("", t or "")).strip()` with
`TAG_RE = re.compile(r"<[^>]+>")`. -/

/-- One pass of `TAG_RE.sub("", s)` for the regex `<[^>]+>`: leftmost
match first, so a `<` opens a candidate tag that is deleted when a later
`>` closes it over a non-empty interior; `<>` and an unterminated `<...`
are left verbatim.  The second argument buffers (reversed) the characters
seen since the currently open `<`, `none` when no `<` is open. -/
def rtAux : List Char → Option (List Char) → List Char
  | [], none => []
  | [], some buf => '<' :: buf.reverse
  | c :: rest, none =>
      if c = '<' then rtAux rest (some [])
      else c :: rtAux rest none
  | c :: rest, some buf =>
      if c = '>' then
        if buf.isEmpty then '<' :: '>' :: rtAux rest none
        else rtAux rest none
      else rtAux rest (some (c :: buf))

/-- `TAG_RE.sub("", s)`: remove every `<[^>]+>` match. -/
def removeTags (l : List Char) : List Char := rtAux l none

/-- One pass of CPython `html.unescape`, restricted to the entities this
data uses: `amp`, `lt`, `gt`, `quot`, each with and without the trailing
semicolon exactly as in the html5 table (so `&ampx` decodes to `&x`);
other entity names and numeric references pass through unchanged.  A
decoded replacement is emitted and scanning resumes after the consumed
characters — equivalent to CPython because a replacement remainder never
contains `&`. -/
def unAux : List Char → List Char
  | [] => []
  | c :: rest =>
    if c = '&' then
      match rest with
      | 'a' :: 'm' :: 'p' :: ';' :: r => '&' :: unAux r
      | 'a' :: 'm' :: 'p' :: r => '&' :: unAux r
      | 'l' :: 't' :: ';' :: r => '<' :: unAux r
      | 'l' :: 't' :: r => '<' :: unAux r
      | 'g' :: 't' :: ';' :: r => '>' :: unAux r
      | 'g' :: 't' :: r => '>' :: unAux r
      | 'q' :: 'u' :: 'o' :: 't' :: ';' :: r => '"' :: unAux r
      | 'q' :: 'u' :: 'o' :: 't' :: r => '"' :: unAux r
      | r => '&' :: unAux r
    else c :: unAux rest

/-- The whitespace removed by Python `str.strip()` (ASCII subset). -/
def isPySpace (c : Char) : Bool :=
  c = ' ' || c = '\t' || c = '\n' || c = '\x0d' || c = '\x0b' || c = '\x0c'

/-- Python `s.strip()`: drop leading and trailing whitespace. -/
def pyStrip (l : List Char) : List Char :=
  (((l.dropWhile isPySpace).reverse).dropWhile isPySpace).reverse

/-- `strip_html` (lines 63-65): delete markup tags, decode HTML entities,
trim surrounding whitespace.  The `t or ""` null-guard lives in
`stripHtmlJ` below, which is where dynamic values enter. -/
def strip_html (s : String) : String :=
  String.mk (pyStrip (unAux (removeTags s.data)))

/-- `strip_html(p.get("body",""))` applied to a raw JSON body value:
Python evaluates `t or ""` (so null and `""` both normalize as `""`) and
raises TypeError inside `re.sub` when the body is truthy but not a
string. -/
def stripHtmlJ (t : J) : Except String String :=
  match (if truthy t then t else J.str "") with
  | .str s => pure (strip_html s)
  | _ => throw "TypeError"

/-! ## Transcript Splitter: `first_assignment` and `split` (lines 71-108) -/

/-- `first_assignment(parts)` (lines 71-75): the `created_at` value of the
first part whose `part_type` equals `"assignment"` and which carries a
`created_at` key; null when there is none.  `p.get` raises on a non-dict
part. -/
def first_assignment : List J → Except String J
  | [] => pure J.null
  | p :: rest => do
      let pt ← dictGet p "part_type" J.null
      if jEq pt (J.str "assignment") && hasKey p "created_at" then
        bracketGet p "created_at"
      else
        first_assignment rest

/-- Lines 79-80: resolve the agent actor id,
`(conv.get("ai_agent", {}).get("actor", {}) or conv.get("ai_agent", {})).get("id")`. -/
def finIdOf (conv : J) : Except String J := do
  let ag ← dictGet conv "ai_agent" (J.obj [])
  let actor ← dictGet ag "actor" (J.obj [])
  dictGet (if truthy actor then actor else ag) "id" J.null

/-- Lines 82-85: the ordered part sequence — the root message (the truthy
one of `conversation_message` and `source`, when any) followed by
`conversation_parts.conversation_parts`. -/
def partsOf (conv : J) : Except String (List J) := do
  let cm ← dictGet conv "conversation_message" J.null
  let src ← dictGet conv "source" J.null
  let root := if truthy cm then cm else src
  let hd := if truthy root then [root] else []
  let cp ← dictGet conv "conversation_parts" (J.obj [])
  let cpl ← dictGet cp "conversation_parts" (J.arr [])
  let tl ← asList cpl
  pure (hd ++ tl)

/-- The body of the `for p in parts` loop after the break check
(lines 93-106): normalize the body, skip when empty, then classify with
Python's short-circuit order — `part_type=="ai_answer"`, an
`ai_answer_type` key, `author.type=="bot"`, then
`fin_id and author.id==fin_id`; customer lines require
`author.type in {"contact","user","lead"}`. -/
def stepPart (finId : J) (p : J) (users convos : List String) :
    Except String (List String × List String) := do
  let bodyJ ← dictGet p "body" (J.str "")
  let body ← stripHtmlJ bodyJ
  if body = "" then
    pure (users, convos)
  else do
    let a ← dictGet p "author" (J.obj [])
    let pt ← dictGet p "part_type" J.null
    let isFin ←
      if jEq pt (J.str "ai_answer") then pure true
      else if hasKey p "ai_answer_type" then pure true
      else do
        let aty ← dictGet a "type" J.null
        if jEq aty (J.str "bot") then pure true
        else if truthy finId then do
          let aid ← dictGet a "id" J.null
          pure (jEq aid finId)
        else pure false
    if isFin then
      pure (users, convos ++ ["[Fin]  " ++ body])
    else do
      let aty ← dictGet a "type" J.null
      if jEq aty (J.str "contact") || jEq aty (J.str "user") ||
          jEq aty (J.str "lead") then
        pure (users ++ [body], convos ++ ["[User] " ++ body])
      else
        pure (users, convos)

/-- The `for p in parts` loop of `split` (lines 90-106): before each part,
`if cutoff and ts and ts >= cutoff: break`. -/
def splitLoop (finId cutoff : J) :
    List J → List String → List String →
    Except String (List String × List String)
  | [], users, convos => pure (users, convos)
  | p :: rest, users, convos => do
      let ts ← dictGet p "created_at" J.null
      let brk ← if truthy cutoff && truthy ts then jGE ts cutoff else pure false
      if brk then
        pure (users, convos)
      else do
        let uv ← stepPart finId p users convos
        splitLoop finId cutoff rest uv.1 uv.2

/-- `split(conv)` (lines 77-108): the pair
`("\n\n".join(user_lines), "\n\n".join(convo_lines))`. -/
def split (conv : J) : Except String (String × String) := do
  let finId ← finIdOf conv
  let parts ← partsOf conv
  let cutoff ← first_assignment parts
  let uv ← splitLoop finId cutoff parts [] []
  pure (String.intercalate "\n\n" uv.1, String.intercalate "\n\n" uv.2)

/-! ## Collection pipeline: `ingest` and the two search passes
(lines 121-137) -/

/-- One accumulated CSV row: identifier, ISO timestamp string, rating
(possibly null) and the transcript text column. -/
structure Row where
  id : J
  created_at : String
  rating : J
  text : String
deriving Repr

/-- The run-scoped mutable state of the collection phase: the seen
identifier set and the two row accumulators (line 121). -/
structure St where
  seen : List J
  userRows : List Row
  convoRows : List Row
deriving Repr

/-- Lines 127-134 of `ingest`, after the dedup guard: fetch the detail,
split it, and build the two rows sharing `id`, ISO timestamp and rating.
The timestamp formatting (`datetime.utcfromtimestamp(...).isoformat()`)
and the detail fetch are external collaborators, passed in as `isoOf` and
`fetch`. -/
def mkRows (isoOf : Int → String) (fetch : J → Except String J)
    (cid : J) (s : J) : Except String (Row × Row) := do
  let conv ← fetch cid
  let uv ← split conv
  let ca ← bracketGet s "created_at"
  let n ← asInt ca
  let ag ← bracketGet s "ai_agent"
  let rating ← dictGet ag "rating" J.null
  pure (⟨cid, isoOf n, rating, uv.1⟩, ⟨cid, isoOf n, rating, uv.2⟩)

/-- `ingest(s)` (lines 123-134): skip an already-seen identifier,
otherwise record it as seen and append one row to each accumulator. -/
def ingest (isoOf : Int → String) (fetch : J → Except String J)
    (st : St) (s : J) : Except String St := do
  let cid ← bracketGet s "id"
  if st.seen.any (fun x => jEq x cid) then
    pure st
  else do
    let rr ← mkRows isoOf fetch cid s
    pure { seen := st.seen ++ [cid],
           userRows := st.userRows ++ [rr.1],
           convoRows := st.convoRows ++ [rr.2] }

/-- Lines 136-137: drain the first search, then the second, ingesting
each summary in order. -/
def collect (isoOf : Int → String) (fetch : J → Except String J)
    (srcA srcB : List J) : Except String St :=
  (srcA ++ srcB).foldlM (ingest isoOf fetch) ⟨[], [], []⟩

/-! ## Claim-side predicates (phrasings taken from the claims, used to
state the theorems; the functions above remain the code model) -/

/-- The timestamp of a part in the sense of the truncation claim: the
numeric `created_at` value when one is present. -/
def tsNum (p : J) : Option Int :=
  match dictGet p "created_at" J.null with
  | .ok (J.num t) => some t
  | _ => none

/-- The truncation condition as the claim words it: the part's timestamp
is present and at least the cutoff `c`. -/
def trigClaim (c : Int) (p : J) : Bool :=
  match tsNum p with
  | some t => decide (c ≤ t)
  | none => false

/-- A summary carries the conversation identifier `cid` (in the sense of
Python `==`). -/
def hasId (cid : J) (s : J) : Bool :=
  match bracketGet s "id" with
  | .ok i => jEq i cid
  | .error _ => false

/-- The identifier `cid` is in the run's seen set (Python set
membership, i.e. membership up to `==`). -/
def idSeen (st : St) (cid : J) : Bool :=
  st.seen.any (fun x => jEq x cid)

/-- Two output rows carry the same identifier, timestamp and rating. -/
def rowMetaEq (r1 r2 : Row) : Prop :=
  r1.id = r2.id ∧ r1.created_at = r2.created_at ∧ r1.rating = r2.rating

/-! ## Concrete records used by the scenario claims -/

/-- Scenario A: one root message from a contact, no conversation parts. -/
def convA : J := J.obj [("conversation_message", J.obj
  [("author", J.obj [("type", J.str "contact")]),
   ("body", J.str "<p>Hi</p>")])]

/-- Scenario B, first part: the agent answer. -/
def partB1 : J := J.obj
  [("part_type", J.str "ai_answer"), ("body", J.str "Hello&amp;")]

/-- Scenario B, second part: the assignment (hand-off) at `t = 100`. -/
def partB2 : J := J.obj
  [("part_type", J.str "assignment"), ("created_at", J.num 100)]

/-- Scenario B, third part: a human reply at `t = 200`. -/
def partB3 : J := J.obj
  [("created_at", J.num 200),
   ("author", J.obj [("type", J.str "user")]),
   ("body", J.str "Thanks, human please")]

/-- Scenario B: agent answer, then assignment at 100, then human reply. -/
def convB : J := J.obj [("conversation_parts", J.obj
  [("conversation_parts", J.arr [partB1, partB2, partB3])])]

/-- An assignment part carrying timestamp 0. -/
def partZ1 : J := J.obj
  [("part_type", J.str "assignment"), ("created_at", J.num 0)]

/-- A customer part at timestamp 5 with body "Hi". -/
def partZ2 : J := J.obj
  [("created_at", J.num 5),
   ("author", J.obj [("type", J.str "contact")]),
   ("body", J.str "Hi")]

/-- A detail whose first timestamped assignment part has timestamp 0,
followed by a later customer part. -/
def convZ : J := J.obj [("conversation_parts", J.obj
  [("conversation_parts", J.arr [partZ1, partZ2])])]

/-- A customer part whose own timestamp is 0. -/
def partT0 : J := J.obj
  [("created_at", J.num 0),
   ("author", J.obj [("type", J.str "contact")]),
   ("body", J.str "Hey")]

/-- A trivial timestamp formatter standing in for the external
`utcfromtimestamp(...).isoformat()` collaborator in concrete runs. -/
def iso0 : Int → String := fun _ => ""

/-- A trivial detail-fetch collaborator returning an empty detail. -/
def fetch0 : J → Except String J := fun _ => .ok (J.obj [])

/-- A well-formed summary with identifier "42". -/
def summary42 : J := J.obj
  [("id", J.str "42"), ("created_at", J.num 0), ("ai_agent", J.obj [])]

/-- The row produced for `summary42` under `iso0` and `fetch0`. -/
def row42 : Row := ⟨J.str "42", "", J.null, ""⟩

/-- The state after collecting `summary42` from both sources. -/
def st42 : St := ⟨[J.str "42"], [row42], [row42]⟩

/-! ## Helper lemmas about the Text Normalizer -/

/-- Tag removal is the identity on text with no `<`. -/
theorem rtAux_eq_self : ∀ l : List Char, '<' ∉ l → rtAux l none = l
  | [], _ => rfl
  | c :: rest, h => by
      have hc : ¬(c = '<') := by
        intro hh
        exact h (hh ▸ List.mem_cons_self c rest)
      have hrest : '<' ∉ rest := fun hm => h (List.mem_cons_of_mem c hm)
      simp only [rtAux, if_neg hc]
      exact congrArg (c :: ·) (rtAux_eq_self rest hrest)

/-- Tag removal is the identity on text with no `<`. -/
theorem removeTags_eq_self {l : List Char} (h : '<' ∉ l) : removeTags l = l :=
  rtAux_eq_self l h

set_option maxHeartbeats 1000000 in
/-- Entity decoding is the identity on text with no `&`. -/
theorem unAux_eq_self : ∀ l : List Char, '&' ∉ l → unAux l = l
  | [], _ => rfl
  | c :: rest, h => by
      have hc : ¬(c = '&') := by
        intro hh
        exact h (hh ▸ List.mem_cons_self c rest)
      have hrest : '&' ∉ rest := fun hm => h (List.mem_cons_of_mem c hm)
      rw [unAux.eq_def]
      simp only [if_neg hc]
      exact congrArg (c :: ·) (unAux_eq_self rest hrest)

/-- Python `strip` is idempotent. -/
theorem pyStrip_idem (l : List Char) : pyStrip (pyStrip l) = pyStrip l := by
  unfold pyStrip
  cases hdl : List.dropWhile isPySpace l with
  | nil => simp
  | cons c rest =>
    have hidem := List.dropWhile_idempotent isPySpace l
    rw [hdl] at hidem
    have hc : ¬(isPySpace c = true) := by
      intro hcc
      rw [List.dropWhile_cons_of_pos hcc] at hidem
      have hlen := congrArg List.length hidem
      have hle := (List.dropWhile_sublist (l := rest) isPySpace).length_le
      simp only [List.length_cons] at hlen
      omega
    have h1 : List.dropWhile isPySpace [c] = [c] :=
      List.dropWhile_cons_of_neg hc
    rw [List.reverse_cons, List.dropWhile_append]
    by_cases he : (List.dropWhile isPySpace rest.reverse).isEmpty = true
    · rw [if_pos he]
      simp [h1]
    · rw [if_neg he]
      rw [List.reverse_append, List.reverse_singleton, List.singleton_append]
      rw [List.dropWhile_cons_of_neg hc]
      rw [List.reverse_cons, List.reverse_reverse]
      rw [List.dropWhile_append, List.dropWhile_idempotent, if_neg he]
      rw [List.reverse_append, List.reverse_singleton, List.singleton_append]

/-! ## Helper lemmas about the exception monad and JSON equality -/

/-- Bind on a successful computation. -/
theorem ebind_ok {α β : Type} (a : α) (f : α → Except String β) :
    Bind.bind (Except.ok a) f = f a := rfl

/-- Bind on a raised exception. -/
theorem ebind_error {α β : Type} (e : String) (f : α → Except String β) :
    Bind.bind (Except.error e : Except String α) f = Except.error e := rfl

/-- Bind on a pure computation. -/
theorem ebind_pure {α β : Type} (a : α) (f : α → Except String β) :
    Bind.bind (pure a : Except String α) f = f a := rfl

/-- `pure` is `Except.ok`. -/
theorem pure_ok {α : Type} (a : α) :
    (pure a : Except String α) = Except.ok a := rfl

/-- Inversion of a successful bind. -/
theorem ebind_ok_iff {α β : Type} {x : Except String α}
    {f : α → Except String β} {b : β} :
    Bind.bind x f = Except.ok b ↔ ∃ a, x = Except.ok a ∧ f a = Except.ok b := by
  cases x with
  | ok a => simp [ebind_ok]
  | error e => simp [ebind_error]

/-- `.get` on an object always succeeds, with the looked-up value or the
default. -/
theorem dictGet_obj (fs : List (String × J)) (k : String) (d : J) :
    dictGet (J.obj fs) k d = Except.ok ((fs.lookup k).getD d) := by
  cases h : fs.lookup k <;> simp [dictGet, h] <;> rfl

/-- Componentwise array equality is propositional equality, given that it
is so for the elements. -/
theorem jEqL_eq_of (l1 : List J)
    (ih : ∀ x ∈ l1, ∀ b, jEq x b = true ↔ x = b) :
    ∀ l2, jEqL l1 l2 = true ↔ l1 = l2 := by
  induction l1 with
  | nil => intro l2; cases l2 <;> simp [jEqL]
  | cons x xs ihl =>
    intro l2
    cases l2 with
    | nil => simp [jEqL]
    | cons y ys =>
      have h1 := ih x (List.mem_cons_self x xs) y
      have h2 := ihl (fun z hz b => ih z (List.mem_cons_of_mem x hz) b) ys
      simp [jEqL, Bool.and_eq_true, h1, h2]

/-- Componentwise object equality is propositional equality, given that
it is so for the field values. -/
theorem jEqO_eq_of (l1 : List (String × J))
    (ih : ∀ x ∈ l1, ∀ b, jEq x.2 b = true ↔ x.2 = b) :
    ∀ l2, jEqO l1 l2 = true ↔ l1 = l2 := by
  induction l1 with
  | nil => intro l2; cases l2 <;> simp [jEqO]
  | cons x xs ihl =>
    intro l2
    cases l2 with
    | nil => cases x; simp [jEqO]
    | cons y ys =>
      cases x with
      | mk k a =>
        cases y with
        | mk k2 b =>
          have h1 := ih ⟨k, a⟩ (List.mem_cons_self _ xs) b
          have h2 := ihl (fun z hz c => ih z (List.mem_cons_of_mem _ hz) c) ys
          simp only [jEqO, Bool.and_eq_true, beq_iff_eq, h1, h2,
            List.cons.injEq, Prod.mk.injEq, and_assoc]

/-- The value component of a field is smaller than the field. -/
theorem sizeOf_snd_lt (x : String × J) : sizeOf x.2 < sizeOf x := by
  cases x with
  | mk k a => simp

/-- `jEq` decides propositional equality (bounded recursion on size). -/
theorem jEq_eq_aux : ∀ (n : Nat) (a b : J), sizeOf a ≤ n →
    (jEq a b = true ↔ a = b) := by
  intro n
  induction n with
  | zero =>
    intro a b h
    exfalso
    cases a <;> simp at h
  | succ n ih =>
    intro a b hsz
    cases a with
    | null => cases b <;> simp [jEq]
    | str s => cases b <;> simp [jEq]
    | num m => cases b <;> simp [jEq]
    | bool c => cases b <;> simp [jEq]
    | arr l1 =>
      cases b <;> simp [jEq]
      case arr l2 =>
        have hfold : ∀ x ∈ l1, ∀ b, jEq x b = true ↔ x = b := by
          intro x hx b
          apply ih
          have hlt := List.sizeOf_lt_of_mem hx
          have hspec : sizeOf (J.arr l1) = 1 + sizeOf l1 := by simp
          omega
        simpa using jEqL_eq_of l1 hfold l2
    | obj l1 =>
      cases b <;> simp [jEq]
      case obj l2 =>
        have hfold : ∀ x ∈ l1, ∀ b, jEq x.2 b = true ↔ x.2 = b := by
          intro x hx b
          apply ih
          have hlt := List.sizeOf_lt_of_mem hx
          have hlt2 := sizeOf_snd_lt x
          have hspec : sizeOf (J.obj l1) = 1 + sizeOf l1 := by simp
          omega
        simpa using jEqO_eq_of l1 hfold l2

/-- `jEq` decides propositional equality. -/
theorem jEq_eq (a b : J) : jEq a b = true ↔ a = b :=
  jEq_eq_aux (sizeOf a) a b (Nat.le_refl _)

/-- `jEq` is reflexive. -/
theorem jEq_refl (a : J) : jEq a a = true := (jEq_eq a a).mpr rfl

/-! ## Claim theorems -/

/-- C1, counterexample: `normalize` (i.e. `strip_html`) is not idempotent:
on `"&lt;b&gt;"` one pass yields `"<b>"`, whose second pass strips the
freshly decoded tag, yielding `""`. -/
theorem C1_normalize_not_idempotent_cex :
    strip_html (strip_html "&lt;b&gt;") ≠ strip_html "&lt;b&gt;" := by
  decide

/-- C1, amended: `strip_html` is idempotent on every input whose
normalized output contains no `<` and no `&` — that is, whenever the
first pass does not itself surface new markup or entities. -/
theorem C1_normalize_idempotent_amended (s : String)
    (h1 : '<' ∉ (strip_html s).data) (h2 : '&' ∉ (strip_html s).data) :
    strip_html (strip_html s) = strip_html s := by
  have hdata : (strip_html s).data = pyStrip (unAux (rtAux s.data none)) := rfl
  calc strip_html (strip_html s)
      = String.mk (pyStrip (unAux (removeTags (strip_html s).data))) := rfl
    _ = String.mk (pyStrip (unAux (strip_html s).data)) := by
        rw [removeTags_eq_self h1]
    _ = String.mk (pyStrip (strip_html s).data) := by
        rw [unAux_eq_self _ h2]
    _ = String.mk (pyStrip (pyStrip (unAux (rtAux s.data none)))) := by
        rw [hdata]
    _ = String.mk (pyStrip (unAux (rtAux s.data none))) := by
        rw [pyStrip_idem]
    _ = strip_html s := rfl

/-- C1, witness for the amended theorem at `s = " hello "`. -/
theorem C1_normalize_idempotent_witness :
    strip_html (strip_html " hello ") = strip_html " hello " :=
  C1_normalize_idempotent_amended " hello " (by decide) (by decide)

/-- C2, counterexample: on Scenario B the code produces the full
transcript `"[Fin]  Hello&"` — the agent role tag is padded with two
spaces — not the claimed `"[Fin] Hello&"`. -/
theorem C2_scenarioB_cex :
    split convB = .ok ("", "[Fin]  Hello&") ∧
      ("[Fin]  Hello&" : String) ≠ "[Fin] Hello&" :=
  ⟨rfl, by decide⟩

/-- C2, amended: on Scenario B the cutoff is 100, the human reply at 200
is excluded, and the full transcript is exactly `"[Fin]  Hello&"` (two
spaces after the agent role tag, as the code formats it). -/
theorem C2_scenarioB_amended :
    partsOf convB = .ok [partB1, partB2, partB3] ∧
      first_assignment [partB1, partB2, partB3] = .ok (J.num 100) ∧
      split convB = .ok ("", "[Fin]  Hello&") :=
  ⟨rfl, rfl, rfl⟩

/-- C8: on Scenario A — one contact root message with body
`"<p>Hi</p>"` and no parts — `split` returns user transcript `"Hi"` and
full transcript `"[User] Hi"`. -/
theorem C8_scenarioA : split convA = .ok ("Hi", "[User] Hi") := rfl

/-- C4, counterexample: a detail whose `ai_agent` field is present but
null makes `split` raise (AttributeError from `None.get("actor", {})`),
so a malformed record with null agent metadata is fatal, not graceful. -/
theorem C4_null_ai_agent_cex :
    split (J.obj [("ai_agent", J.null)]) = .error "AttributeError" := rfl

/-- C4, amended: a detail missing all expected structural fields —
no `ai_agent`, no root message (`conversation_message`/`source`) and no
`conversation_parts`, whatever other fields it carries — degrades
gracefully: `split` returns empty transcripts without raising.  (With a
null `ai_agent` value it raises instead; see the counterexample.) -/
theorem C4_graceful_amended (fs : List (String × J))
    (h1 : fs.lookup "ai_agent" = none)
    (h2 : fs.lookup "conversation_message" = none)
    (h3 : fs.lookup "source" = none)
    (h4 : fs.lookup "conversation_parts" = none) :
    split (J.obj fs) = .ok ("", "") := by
  unfold split finIdOf partsOf
  simp only [dictGet, h1, h2, h3, h4]
  rfl

/-- C4, witness for the amended theorem: a detail carrying only an id. -/
theorem C4_graceful_witness :
    split (J.obj [("id", J.str "7")]) = .ok ("", "") :=
  C4_graceful_amended [("id", J.str "7")] rfl rfl rfl rfl

/-- C7, counterexample: a detail carrying only a null `ai_agent` has an
empty ordered part sequence, yet `split` does not return `("", "")` — it
raises (AttributeError in the agent-id resolution of line 79, which runs
before the parts are even assembled).  So an empty part sequence alone
does not guarantee the empty pair. -/
theorem C7_empty_parts_cex :
    partsOf (J.obj [("ai_agent", J.null)]) = .ok [] ∧
    split (J.obj [("ai_agent", J.null)]) = .error "AttributeError" :=
  ⟨rfl, rfl⟩

/-- C7, amended: when the ordered part sequence is empty and the
agent-id resolution does not itself raise (as with any detail whose
`ai_agent` is absent or an object), `split` returns the pair of empty
strings.  (A null `ai_agent` value raises instead; see the
counterexample.) -/
theorem C7_empty_parts (conv finId : J)
    (h1 : finIdOf conv = .ok finId) (h2 : partsOf conv = .ok []) :
    split conv = .ok ("", "") := by
  unfold split
  rw [h1, h2]
  rfl

/-- C7, witness at the empty object. -/
theorem C7_empty_parts_witness : split (J.obj []) = .ok ("", "") :=
  C7_empty_parts (J.obj []) J.null rfl rfl


/-- With a zero cutoff, the loop behaves exactly as with no cutoff
(`cutoff and ...` is falsy either way). -/
theorem splitLoop_zero_cutoff (finId : J) :
    ∀ (parts : List J) (u v : List String),
      splitLoop finId (J.num 0) parts u v = splitLoop finId J.null parts u v := by
  intro parts
  induction parts with
  | nil => intro u v; rfl
  | cons p rest ih =>
    intro u v
    simp only [splitLoop]
    cases hts : dictGet p "created_at" J.null with
    | error e => rw [ebind_error, ebind_error]
    | ok ts =>
      rw [ebind_ok, ebind_ok]
      rw [show (truthy (J.num 0) && truthy ts) = false from rfl]
      rw [show (truthy J.null && truthy ts) = false from rfl]
      show Bind.bind (stepPart finId p u v)
            (fun uv => splitLoop finId (J.num 0) rest uv.1 uv.2) =
          Bind.bind (stepPart finId p u v)
            (fun uv => splitLoop finId J.null rest uv.1 uv.2)
      cases hsp : stepPart finId p u v with
      | error e => rw [ebind_error, ebind_error]
      | ok uv =>
        rw [ebind_ok, ebind_ok]
        exact ih uv.1 uv.2

/-- A part whose own timestamp is 0 never triggers the break
(`ts` is falsy), whatever the cutoff is. -/
theorem splitLoop_ts_zero (finId cutoff : J) (p : J) (rest : List J)
    (u v : List String)
    (hts : dictGet p "created_at" J.null = .ok (J.num 0)) :
    splitLoop finId cutoff (p :: rest) u v =
      Bind.bind (stepPart finId p u v)
        (fun uv => splitLoop finId cutoff rest uv.1 uv.2) := by
  simp only [splitLoop]
  rw [hts, ebind_ok]
  rw [show truthy (J.num 0) = false from rfl, Bool.and_false]
  rfl

/-- C10: truthiness quirks around zero timestamps — a computed cutoff of
0 disables truncation entirely (the loop equals the no-cutoff loop on
every part list), and a part whose own `created_at` is 0 never triggers
truncation even under a positive cutoff. -/
theorem C10_zero_timestamp_truthiness :
    (∀ (finId : J) (parts : List J) (u v : List String),
      splitLoop finId (J.num 0) parts u v = splitLoop finId J.null parts u v) ∧
    (∀ (finId : J) (c : Int) (p : J) (rest : List J) (u v : List String),
      0 < c →
      dictGet p "created_at" J.null = .ok (J.num 0) →
      splitLoop finId (J.num c) (p :: rest) u v =
        Bind.bind (stepPart finId p u v)
          (fun uv => splitLoop finId (J.num c) rest uv.1 uv.2)) :=
  ⟨fun finId parts u v => splitLoop_zero_cutoff finId parts u v,
   fun finId c p rest u v _ hts =>
     splitLoop_ts_zero finId (J.num c) p rest u v hts⟩

/-- C10, witness: the zero-cutoff equality at a concrete part, and the
zero-timestamp non-break at cutoff 100. -/
theorem C10_zero_timestamp_witness :
    (splitLoop J.null (J.num 0) [partZ2] [] [] =
      splitLoop J.null J.null [partZ2] [] []) ∧
    (splitLoop J.null (J.num 100) [partT0] [] [] =
      Bind.bind (stepPart J.null partT0 [] [])
        (fun uv => splitLoop J.null (J.num 100) [] uv.1 uv.2)) :=
  ⟨C10_zero_timestamp_truthiness.1 J.null [partZ2] [] [],
   C10_zero_timestamp_truthiness.2 J.null 100 partT0 [] [] []
     (by decide) rfl⟩

/-- The loop treats two tails the same whenever they are treated the same
from any accumulator state: processing one part is deterministic in the
part itself. -/
theorem splitLoop_cons_congr (finId cutoff : J) (p : J) (A B : List J)
    (h : ∀ u v, splitLoop finId cutoff A u v = splitLoop finId cutoff B u v) :
    ∀ u v, splitLoop finId cutoff (p :: A) u v =
      splitLoop finId cutoff (p :: B) u v := by
  intro u v
  simp only [splitLoop]
  cases hts : dictGet p "created_at" J.null with
  | error e => rw [ebind_error, ebind_error]
  | ok ts =>
    rw [ebind_ok, ebind_ok]
    cases hcond : (truthy cutoff && truthy ts) with
    | false =>
      show Bind.bind (stepPart finId p u v)
            (fun uv => splitLoop finId cutoff A uv.1 uv.2) =
          Bind.bind (stepPart finId p u v)
            (fun uv => splitLoop finId cutoff B uv.1 uv.2)
      cases hsp : stepPart finId p u v with
      | error e => rw [ebind_error, ebind_error]
      | ok uv => rw [ebind_ok, ebind_ok]; exact h uv.1 uv.2
    | true =>
      show Bind.bind (jGE ts cutoff) _ = Bind.bind (jGE ts cutoff) _
      cases hge : jGE ts cutoff with
      | error e => rw [ebind_error, ebind_error]
      | ok b =>
        rw [ebind_ok, ebind_ok]
        cases b with
        | true => rfl
        | false =>
          show Bind.bind (stepPart finId p u v)
                (fun uv => splitLoop finId cutoff A uv.1 uv.2) =
              Bind.bind (stepPart finId p u v)
                (fun uv => splitLoop finId cutoff B uv.1 uv.2)
          cases hsp : stepPart finId p u v with
          | error e => rw [ebind_error, ebind_error]
          | ok uv => rw [ebind_ok, ebind_ok]; exact h uv.1 uv.2

/-- With a positive cutoff `c`, the loop computes exactly what it
computes on the prefix of parts before the first part whose timestamp is
present and `≥ c`. -/
theorem splitLoop_truncates (finId : J) (c : Int) (hc : 0 < c) :
    ∀ (parts : List J) (u v : List String),
      splitLoop finId (J.num c) parts u v =
        splitLoop finId (J.num c)
          (parts.takeWhile (fun p => !trigClaim c p)) u v := by
  intro parts
  induction parts with
  | nil => intro u v; rfl
  | cons p rest ih =>
    intro u v
    rw [List.takeWhile_cons]
    cases htr : trigClaim c p with
    | false =>
      simp only [htr, Bool.not_false, if_pos]
      exact splitLoop_cons_congr finId (J.num c) p rest _
        (fun u2 v2 => ih u2 v2) u v
    | true =>
      have hts' : ∃ t, tsNum p = some t ∧ decide (c ≤ t) = true := by
        unfold trigClaim at htr
        cases h : tsNum p with
        | none => rw [h] at htr; exact absurd htr (by simp)
        | some t => rw [h] at htr; exact ⟨t, rfl, htr⟩
      obtain ⟨t, htsn, hle⟩ := hts'
      have hget : dictGet p "created_at" J.null = .ok (J.num t) := by
        unfold tsNum at htsn
        cases hg : dictGet p "created_at" J.null with
        | error e => rw [hg] at htsn; simp at htsn
        | ok v =>
          rw [hg] at htsn
          cases v with
          | num t2 => simp at htsn; rw [htsn]
          | null => simp at htsn
          | str s2 => simp at htsn
          | bool b2 => simp at htsn
          | arr l2 => simp at htsn
          | obj l2 => simp at htsn
      have hlep : c ≤ t := of_decide_eq_true hle
      simp only [splitLoop]
      rw [hget, ebind_ok]
      rw [show truthy (J.num c) = true from by simp [truthy]; omega]
      rw [show truthy (J.num t) = true from by simp [truthy]; omega]
      rw [show jGE (J.num t) (J.num c) = Except.ok true from by
        simp only [jGE, hle]; rfl]
      rfl

/-- C3, counterexample: on a detail whose first timestamped assignment
part carries timestamp 0 the computed cutoff is 0, which is falsy, so
truncation is disabled: the later customer part at timestamp 5 ≥ 0 still
contributes its text `"Hi"` to both transcripts, contradicting the claim
that a part with timestamp `≥` cutoff never contributes. -/
theorem C3_truncation_cex :
    partsOf convZ = .ok [partZ1, partZ2] ∧
    first_assignment [partZ1, partZ2] = .ok (J.num 0) ∧
    dictGet partZ2 "created_at" J.null = .ok (J.num 5) ∧
    ((0 : Int) ≤ 5) ∧
    split convZ = .ok ("Hi", "[User] Hi") :=
  ⟨rfl, rfl, rfl, by decide, rfl⟩

/-- C3, amended: when the first timestamped assignment part yields a
positive cutoff `c`, `split` computes its transcripts from exactly the
prefix of the ordered parts before the first part whose timestamp is
present and `≥ c` — so no part at or after the cutoff contributes, and a
part with no timestamp never stops the scan (it is kept by the
`takeWhile` prefix).  (With cutoff 0 the Python truthiness test disables
truncation; see the counterexample.) -/
theorem C3_truncation_amended (conv finId : J) (parts : List J) (c : Int)
    (hfin : finIdOf conv = .ok finId) (hparts : partsOf conv = .ok parts)
    (hcut : first_assignment parts = .ok (J.num c)) (hc : 0 < c) :
    (split conv =
      Bind.bind (splitLoop finId (J.num c)
          (parts.takeWhile (fun p => !trigClaim c p)) [] [])
        (fun uv => Except.ok
          (String.intercalate "\n\n" uv.1,
           String.intercalate "\n\n" uv.2))) ∧
    ∀ p ∈ parts.takeWhile (fun p => !trigClaim c p),
      trigClaim c p = false := by
  constructor
  · simp only [split, hfin, hparts, hcut, ebind_ok]
    rw [splitLoop_truncates finId c hc parts]
    rfl
  · intro p hp
    simpa using List.mem_takeWhile_imp hp

/-- C3, witness at Scenario B: positive cutoff 100, truncated prefix. -/
theorem C3_truncation_witness :
    (split convB =
      Bind.bind (splitLoop J.null (J.num 100)
          ([partB1, partB2, partB3].takeWhile (fun p => !trigClaim 100 p))
          [] [])
        (fun uv => Except.ok
          (String.intercalate "\n\n" uv.1,
           String.intercalate "\n\n" uv.2))) ∧
    ∀ p ∈ [partB1, partB2, partB3].takeWhile (fun p => !trigClaim 100 p),
      trigClaim 100 p = false :=
  C3_truncation_amended convB J.null [partB1, partB2, partB3] 100
    rfl rfl rfl (by decide)

/-- C5: authorship classification, first true condition wins, evaluated
in the code's order.  For any part (given as an object whose author field
is an object, with a body that normalizes without error), the loop body
appends the agent line iff `part_type == "ai_answer"`, or the part has an
`ai_answer_type` key, or `author.type == "bot"`, or the agent actor id is
truthy and equals `author.id`; otherwise it appends the customer line iff
`author.type` is one of contact, user, lead; otherwise it appends
nothing.  Parts normalizing to an empty body contribute nothing. -/
theorem C5_classification (finId : J) (pf afs : List (String × J))
    (bodyJ : J) (body : String) (u v : List String)
    (hauthor : dictGet (J.obj pf) "author" (J.obj []) = .ok (J.obj afs))
    (hbody : dictGet (J.obj pf) "body" (J.str "") = .ok bodyJ)
    (hstrip : stripHtmlJ bodyJ = .ok body) :
    stepPart finId (J.obj pf) u v = .ok (
      if body = "" then (u, v)
      else if jEq ((pf.lookup "part_type").getD J.null) (J.str "ai_answer")
          || hasKey (J.obj pf) "ai_answer_type"
          || jEq ((afs.lookup "type").getD J.null) (J.str "bot")
          || (truthy finId &&
              jEq ((afs.lookup "id").getD J.null) finId) then
        (u, v ++ ["[Fin]  " ++ body])
      else if jEq ((afs.lookup "type").getD J.null) (J.str "contact")
          || jEq ((afs.lookup "type").getD J.null) (J.str "user")
          || jEq ((afs.lookup "type").getD J.null) (J.str "lead") then
        (u ++ [body], v ++ ["[User] " ++ body])
      else (u, v)) := by
  unfold stepPart
  rw [hbody, ebind_ok, hstrip, ebind_ok]
  by_cases hb : body = ""
  · rw [if_pos hb, if_pos hb]; rfl
  · rw [if_neg hb, if_neg hb]
    rw [hauthor, ebind_ok]
    simp only [dictGet_obj, ebind_ok, ebind_pure, pure_ok]
    cases h1 : jEq ((pf.lookup "part_type").getD J.null)
        (J.str "ai_answer") <;>
      cases h2 : hasKey (J.obj pf) "ai_answer_type" <;>
      cases h3 : jEq ((afs.lookup "type").getD J.null) (J.str "bot") <;>
      cases h4 : truthy finId <;>
      cases h5 : jEq ((afs.lookup "id").getD J.null) finId <;>
      cases h6 : jEq ((afs.lookup "type").getD J.null) (J.str "contact") <;>
      cases h7 : jEq ((afs.lookup "type").getD J.null) (J.str "user") <;>
      cases h8 : jEq ((afs.lookup "type").getD J.null) (J.str "lead") <;>
      rfl

/-- C5, witness: a contact-authored part with body "yo" goes to both
transcripts as a customer line. -/
theorem C5_classification_witness :
    stepPart (J.str "f1")
      (J.obj [("body", J.str "yo"),
              ("author", J.obj [("type", J.str "contact")])]) [] [] =
      .ok (["yo"], ["[User] yo"]) :=
  (C5_classification (J.str "f1")
      [("body", J.str "yo"), ("author", J.obj [("type", J.str "contact")])]
      [("type", J.str "contact")] (J.str "yo") "yo" [] []
      rfl rfl rfl).trans rfl

/-- The two rows built by one `ingest` step share the identifier (the
summary's id), the ISO timestamp and the rating. -/
theorem mkRows_shape (isoOf : Int → String) (fetch : J → Except String J)
    (cid s : J) (rr : Row × Row)
    (h : mkRows isoOf fetch cid s = .ok rr) :
    rr.1.id = cid ∧ rr.2.id = cid ∧
      rr.1.created_at = rr.2.created_at ∧ rr.1.rating = rr.2.rating := by
  unfold mkRows at h
  obtain ⟨conv, hfe, h⟩ := ebind_ok_iff.mp h
  obtain ⟨uv, hsp, h⟩ := ebind_ok_iff.mp h
  obtain ⟨ca, hca, h⟩ := ebind_ok_iff.mp h
  obtain ⟨n, hn, h⟩ := ebind_ok_iff.mp h
  obtain ⟨ag, hag, h⟩ := ebind_ok_iff.mp h
  obtain ⟨rat, hrat, h⟩ := ebind_ok_iff.mp h
  rw [pure_ok] at h
  injection h with h2
  rw [← h2]
  exact ⟨rfl, rfl, rfl, rfl⟩

/-- C9: one `ingest` call preserves row pairing — the two accumulators
stay equally long and at every index the user row and the conversation
row carry the same identifier, timestamp and rating (each summary
appends one row to each accumulator, or none to either). -/
theorem C9_row_pairing (isoOf : Int → String) (fetch : J → Except String J)
    (st : St) (s : J) (st2 : St)
    (hpre : List.Forall₂ rowMetaEq st.userRows st.convoRows)
    (hrun : ingest isoOf fetch st s = .ok st2) :
    List.Forall₂ rowMetaEq st2.userRows st2.convoRows ∧
      st2.userRows.length = st2.convoRows.length := by
  unfold ingest at hrun
  obtain ⟨cid, hid, hrun⟩ := ebind_ok_iff.mp hrun
  by_cases hseen : st.seen.any (fun x => jEq x cid) = true
  · rw [if_pos hseen, pure_ok] at hrun
    injection hrun with h2
    rw [← h2]
    exact ⟨hpre, hpre.length_eq⟩
  · rw [if_neg hseen] at hrun
    obtain ⟨rr, hmk, hrun⟩ := ebind_ok_iff.mp hrun
    rw [pure_ok] at hrun
    injection hrun with h2
    obtain ⟨hid1, hid2, hca, hrat⟩ := mkRows_shape isoOf fetch cid s rr hmk
    rw [← h2]
    have hrel : rowMetaEq rr.1 rr.2 := ⟨hid1.trans hid2.symm, hca, hrat⟩
    have hall : List.Forall₂ rowMetaEq (st.userRows ++ [rr.1])
        (st.convoRows ++ [rr.2]) :=
      List.rel_append hpre (List.Forall₂.cons hrel List.Forall₂.nil)
    exact ⟨hall, hall.length_eq⟩

/-- C9, witness: ingesting `summary42` into the empty state pairs the
two accumulators. -/
theorem C9_row_pairing_witness :
    List.Forall₂ rowMetaEq st42.userRows st42.convoRows ∧
      st42.userRows.length = st42.convoRows.length :=
  C9_row_pairing iso0 fetch0 ⟨[], [], []⟩ summary42 st42
    List.Forall₂.nil rfl

/-- Inversion of one `ingest` step: the summary's id was read, and the
state either stayed put (already seen) or gained the id and one row in
each accumulator. -/
theorem ingest_step (isoOf : Int → String) (fetch : J → Except String J)
    (st : St) (s : J) (st2 : St) (h : ingest isoOf fetch st s = .ok st2) :
    ∃ cid, bracketGet s "id" = .ok cid ∧
      ((st.seen.any (fun x => jEq x cid) = true ∧ st2 = st) ∨
       (st.seen.any (fun x => jEq x cid) = false ∧
        ∃ rr, mkRows isoOf fetch cid s = .ok rr ∧
          st2 = ⟨st.seen ++ [cid], st.userRows ++ [rr.1],
                 st.convoRows ++ [rr.2]⟩)) := by
  unfold ingest at h
  obtain ⟨cid, hid, h⟩ := ebind_ok_iff.mp h
  refine ⟨cid, hid, ?_⟩
  by_cases hseen : st.seen.any (fun x => jEq x cid) = true
  · rw [if_pos hseen, pure_ok] at h
    injection h with h2
    exact Or.inl ⟨hseen, h2.symm⟩
  · rw [if_neg hseen] at h
    obtain ⟨rr, hmk, h⟩ := ebind_ok_iff.mp h
    rw [pure_ok] at h
    injection h with h2
    have hseen2 : st.seen.any (fun x => jEq x cid) = false := by
      simpa using hseen
    exact Or.inr ⟨hseen2, rr, hmk, h2.symm⟩

/-- Once an identifier is in the seen set, draining any further summary
list never adds a row carrying it (the dedup guard skips it), and it
stays seen. -/
theorem foldIngest_frozen (isoOf : Int → String)
    (fetch : J → Except String J) (cid : J) :
    ∀ (l : List J) (st st2 : St),
      l.foldlM (ingest isoOf fetch) st = .ok st2 →
      idSeen st cid = true →
        idSeen st2 cid = true ∧
        st2.userRows.filter (fun r => jEq r.id cid) =
          st.userRows.filter (fun r => jEq r.id cid) ∧
        st2.convoRows.filter (fun r => jEq r.id cid) =
          st.convoRows.filter (fun r => jEq r.id cid) := by
  intro l
  induction l with
  | nil =>
    intro st st2 h hseen
    rw [List.foldlM_nil, pure_ok] at h
    injection h with h2
    rw [← h2]
    exact ⟨hseen, rfl, rfl⟩
  | cons s0 l ih =>
    intro st st2 h hseen
    rw [List.foldlM_cons] at h
    obtain ⟨st1, h1, hrest⟩ := ebind_ok_iff.mp h
    clear h
    obtain ⟨cid0, hid, hcase⟩ := ingest_step isoOf fetch st s0 st1 h1
    rcases hcase with ⟨-, rfl⟩ | ⟨hnew, rr, hmk, rfl⟩
    · exact ih _ st2 hrest hseen
    · have hne : jEq cid0 cid = false := by
        cases hcc : jEq cid0 cid with
        | false => rfl
        | true =>
          have : cid0 = cid := (jEq_eq _ _).mp hcc
          rw [this] at hnew
          unfold idSeen at hseen
          rw [hseen] at hnew
          exact Bool.noConfusion hnew
      obtain ⟨hid1, hid2, -, -⟩ := mkRows_shape isoOf fetch cid0 s0 rr hmk
      have hseen1 : idSeen ⟨st.seen ++ [cid0], st.userRows ++ [rr.1],
          st.convoRows ++ [rr.2]⟩ cid = true := by
        unfold idSeen at hseen ⊢
        simp [List.any_append, hseen]
      obtain ⟨ha, hb, hc⟩ := ih _ st2 hrest hseen1
      refine ⟨ha, ?_, ?_⟩
      · rw [hb]
        show (st.userRows ++ [rr.1]).filter _ = _
        rw [List.filter_append]
        have hdrop : [rr.1].filter (fun r => jEq r.id cid) = [] := by
          simp [List.filter, hid1, hne]
        rw [hdrop, List.append_nil]
      · rw [hc]
        show (st.convoRows ++ [rr.2]).filter _ = _
        rw [List.filter_append]
        have hdrop : [rr.2].filter (fun r => jEq r.id cid) = [] := by
          simp [List.filter, hid2, hne]
        rw [hdrop, List.append_nil]

/-- Draining a summary list from a state in which `cid` is unseen, when
some summary in the list carries `cid`: the first such summary is
processed, contributing exactly one row (pair) for `cid`, and later
occurrences are skipped. -/
theorem foldIngest_find (isoOf : Int → String)
    (fetch : J → Except String J) (cid : J) :
    ∀ (l : List J) (st st2 : St),
      l.foldlM (ingest isoOf fetch) st = .ok st2 →
      idSeen st cid = false →
      (∃ s ∈ l, hasId cid s = true) →
      ∃ s rr, l.find? (hasId cid) = some s ∧
        bracketGet s "id" = .ok cid ∧
        mkRows isoOf fetch cid s = .ok rr ∧
        st2.userRows.filter (fun r => jEq r.id cid) =
          st.userRows.filter (fun r => jEq r.id cid) ++ [rr.1] ∧
        st2.convoRows.filter (fun r => jEq r.id cid) =
          st.convoRows.filter (fun r => jEq r.id cid) ++ [rr.2] := by
  intro l
  induction l with
  | nil =>
    intro st st2 h h0 hex
    simp at hex
  | cons s0 l ih =>
    intro st st2 h h0 hex
    rw [List.foldlM_cons] at h
    obtain ⟨st1, h1, hrest⟩ := ebind_ok_iff.mp h
    clear h
    obtain ⟨cid0, hid, hcase⟩ := ingest_step isoOf fetch st s0 st1 h1
    cases hh : hasId cid s0 with
    | true =>
      have hcid0 : cid0 = cid := by
        unfold hasId at hh
        rw [hid] at hh
        exact (jEq_eq _ _).mp hh
      subst hcid0
      rcases hcase with ⟨hsn, rfl⟩ | ⟨hnew, rr, hmk, rfl⟩
      · unfold idSeen at h0
        rw [h0] at hsn
        exact Bool.noConfusion hsn
      · have hseen1 : idSeen ⟨st.seen ++ [cid0], st.userRows ++ [rr.1],
            st.convoRows ++ [rr.2]⟩ cid0 = true := by
          unfold idSeen
          simp [List.any_append, jEq_refl]
        obtain ⟨-, hfu, hfc⟩ := foldIngest_frozen isoOf fetch cid0 l _ st2 hrest hseen1
        obtain ⟨hid1, hid2, -, -⟩ := mkRows_shape isoOf fetch cid0 s0 rr hmk
        refine ⟨s0, rr, List.find?_cons_of_pos l hh, hid, hmk, ?_, ?_⟩
        · rw [hfu]
          show (st.userRows ++ [rr.1]).filter _ = _
          rw [List.filter_append]
          have hkeep : [rr.1].filter (fun r => jEq r.id cid0) = [rr.1] := by
            simp [List.filter, hid1, jEq_refl]
          rw [hkeep]
        · rw [hfc]
          show (st.convoRows ++ [rr.2]).filter _ = _
          rw [List.filter_append]
          have hkeep : [rr.2].filter (fun r => jEq r.id cid0) = [rr.2] := by
            simp [List.filter, hid2, jEq_refl]
          rw [hkeep]
    | false =>
      have hfind : (s0 :: l).find? (hasId cid) = l.find? (hasId cid) :=
        List.find?_cons_of_neg l (by simp [hh])
      have hex2 : ∃ s ∈ l, hasId cid s = true := by
        obtain ⟨s, hs, hhas⟩ := hex
        cases List.mem_cons.mp hs with
        | inl he =>
          rw [he] at hhas
          rw [hh] at hhas
          exact Bool.noConfusion hhas
        | inr hm => exact ⟨s, hm, hhas⟩
      rcases hcase with ⟨-, rfl⟩ | ⟨hnew, rr, hmk, rfl⟩
      · obtain ⟨s, rr, hf, hbid, hmk, hfu, hfc⟩ := ih _ st2 hrest h0 hex2
        exact ⟨s, rr, hfind ▸ hf, hbid, hmk, hfu, hfc⟩
      · have hne : jEq cid0 cid = false := by
          unfold hasId at hh
          rw [hid] at hh
          exact hh
        have h02 : idSeen ⟨st.seen ++ [cid0], st.userRows ++ [rr.1],
            st.convoRows ++ [rr.2]⟩ cid = false := by
          unfold idSeen at h0 ⊢
          simp [List.any_append, h0, hne]
        obtain ⟨hid1, hid2, -, -⟩ := mkRows_shape isoOf fetch cid0 s0 rr hmk
        obtain ⟨s, rr2, hf, hbid, hmk2, hfu, hfc⟩ := ih _ st2 hrest h02 hex2
        refine ⟨s, rr2, hfind ▸ hf, hbid, hmk2, ?_, ?_⟩
        · rw [hfu]
          show (st.userRows ++ [rr.1]).filter _ ++ [rr2.1] = _
          rw [List.filter_append]
          have hdrop : [rr.1].filter (fun r => jEq r.id cid) = [] := by
            simp [List.filter, hid1, hne]
          rw [hdrop, List.append_nil]
        · rw [hfc]
          show (st.convoRows ++ [rr.2]).filter _ ++ [rr2.2] = _
          rw [List.filter_append]
          have hdrop : [rr.2].filter (fun r => jEq r.id cid) = [] := by
            simp [List.filter, hid2, hne]
          rw [hdrop, List.append_nil]

/-- C6: an identifier appearing in both search result sequences yields
exactly one row in each of the two output row sets, built (fetch, split,
timestamp, rating) from the first summary carrying that identifier in
discovery order — first search's results before the second's. -/
theorem C6_dedup_first (isoOf : Int → String) (fetch : J → Except String J)
    (srcA srcB : List J) (cid : J) (st : St)
    (hA : ∃ s ∈ srcA, hasId cid s = true)
    (_hB : ∃ s ∈ srcB, hasId cid s = true)
    (hrun : collect isoOf fetch srcA srcB = .ok st) :
    st.userRows.countP (fun r => jEq r.id cid) = 1 ∧
    st.convoRows.countP (fun r => jEq r.id cid) = 1 ∧
    ∃ s rr, (srcA ++ srcB).find? (hasId cid) = some s ∧
      bracketGet s "id" = .ok cid ∧
      mkRows isoOf fetch cid s = .ok rr ∧
      st.userRows.filter (fun r => jEq r.id cid) = [rr.1] ∧
      st.convoRows.filter (fun r => jEq r.id cid) = [rr.2] := by
  unfold collect at hrun
  have hex : ∃ s ∈ srcA ++ srcB, hasId cid s = true := by
    obtain ⟨s, hs, hh⟩ := hA
    exact ⟨s, List.mem_append_left _ hs, hh⟩
  obtain ⟨s, rr, hf, hbid, hmk, hfu, hfc⟩ :=
    foldIngest_find isoOf fetch cid (srcA ++ srcB) ⟨[], [], []⟩ st hrun rfl hex
  simp only [List.filter_nil, List.nil_append] at hfu hfc
  refine ⟨?_, ?_, s, rr, hf, hbid, hmk, hfu, hfc⟩
  · rw [List.countP_eq_length_filter, hfu]
    rfl
  · rw [List.countP_eq_length_filter, hfc]
    rfl

/-- C6, witness: the identifier "42" returned by both searches produces
one row pair, attributed to the first occurrence. -/
theorem C6_dedup_witness :
    st42.userRows.countP (fun r => jEq r.id (J.str "42")) = 1 ∧
    st42.convoRows.countP (fun r => jEq r.id (J.str "42")) = 1 ∧
    ∃ s rr, ([summary42] ++ [summary42]).find? (hasId (J.str "42")) = some s ∧
      bracketGet s "id" = .ok (J.str "42") ∧
      mkRows iso0 fetch0 (J.str "42") s = .ok rr ∧
      st42.userRows.filter (fun r => jEq r.id (J.str "42")) = [rr.1] ∧
      st42.convoRows.filter (fun r => jEq r.id (J.str "42")) = [rr.2] :=
  C6_dedup_first iso0 fetch0 [summary42] [summary42] (J.str "42") st42
    ⟨summary42, List.mem_cons_self _ _, rfl⟩
    ⟨summary42, List.mem_cons_self _ _, rfl⟩
    rfl
